import Mathlib

/-!
Verification of the lightstock indicator pipeline.

This file gives a shallow embedding of the core computations of the
repository and proves the specified properties about them:

* the rolling-window indicator functions of
  scripts/S4_20251102 calculate (calculate_ma, calculate_rsi, calculate_kdj,
  calculate_volume_indicators, calculate_price_range, calculate_price_changes,
  calculate_rs_raw, calculate_all_indicators);
* the per-symbol merge of scripts/S1_20251103_download_kline
  (merge_data) and scripts/download_data_smart.py (update_or_append);
* the incremental range resolver of scripts/S1_20251103_download_kline
  (calculate_download_range);
* the cross-sectional ranker of scripts/S4_20251102 calculate
  (calculate_rs_rating_for_stocks);
* the Supabase indicator job of calculate_indicators.py (calculate_mytt and
  its record-building loop).

Numeric values are modelled as exact rationals; a pandas NaN / missing value
is modelled as Option.none.  Pandas specific semantics that the source code
relies on are modelled explicitly where they matter and documented at the
corresponding definition.
-/

namespace LightStock

/-! ### Rolling windows

Pandas Series.rolling(window=w) with the default min_periods: the aggregate
at position i is NaN while fewer than w observations are available, i.e. for
i + 1 < w, and is computed over the w trailing values otherwise. -/

/-- The trailing window of width w ending at position i (inclusive). -/
def winAt (xs : List ℚ) (i w : ℕ) : List ℚ :=
  (xs.take (i + 1)).drop (i + 1 - w)

/-- Rolling aggregate at one position: none while fewer than w values exist. -/
def rollAt (g : List ℚ → ℚ) (w : ℕ) (xs : List ℚ) (i : ℕ) : Option ℚ :=
  if w ≤ i + 1 then some (g (winAt xs i w)) else none

/-- Arithmetic mean of a list (mean of the window; the window has length w
whenever the rolling aggregate is defined). -/
def meanFn (l : List ℚ) : ℚ := l.sum / l.length

/-- Maximum of a list (only applied to nonempty windows). -/
def maxFn : List ℚ → ℚ
  | [] => 0
  | x :: t => t.foldl max x

/-- Minimum of a list (only applied to nonempty windows). -/
def minFn : List ℚ → ℚ
  | [] => 0
  | x :: t => t.foldl min x

/-- Series.rolling(window=w).mean() as a list of nullable values. -/
def rollingMean (w : ℕ) (xs : List ℚ) : List (Option ℚ) :=
  (List.range xs.length).map (rollAt meanFn w xs)

/-- Series.rolling(window=w).max(). -/
def rollingMax (w : ℕ) (xs : List ℚ) : List (Option ℚ) :=
  (List.range xs.length).map (rollAt maxFn w xs)

/-- Series.rolling(window=w).min(). -/
def rollingMin (w : ℕ) (xs : List ℚ) : List (Option ℚ) :=
  (List.range xs.length).map (rollAt minFn w xs)

/-! ### Moving averages, volume indicators, price range
(S4 script: calculate_ma, calculate_volume_indicators, calculate_price_range) -/

/-- calculate_ma for one period w: df close rolling(window=w).mean(). -/
def calculate_ma (w : ℕ) (close : List ℚ) : List (Option ℚ) :=
  rollingMean w close

/-- calculate_volume_indicators, the volume moving average at window w:
df volume rolling(window=w).mean(). -/
def calculate_volume_ma (w : ℕ) (volume : List ℚ) : List (Option ℚ) :=
  rollingMean w volume

/-- calculate_price_range, upper extreme: df high rolling(window=w).max(). -/
def calculate_high_range (w : ℕ) (high : List ℚ) : List (Option ℚ) :=
  rollingMax w high

/-- calculate_price_range, lower extreme: df low rolling(window=w).min(). -/
def calculate_low_range (w : ℕ) (low : List ℚ) : List (Option ℚ) :=
  rollingMin w low

/-! ### RSI (S4 script: calculate_rsi)

The source computes delta = close.diff(); the first delta is NaN.  Both
Series.where(delta greater than 0, 0) and the negated counterpart replace that
NaN by 0 because a NaN comparison is false; so the gain and loss series are
total (no NaN) and their rolling means are non-null from position w - 1
(0-indexed) onward.  The quotient rs = gain / loss follows IEEE semantics:
positive / 0 is +infinity, making rsi = 100 - 100 / (1 + rs) equal to 100,
while 0 / 0 is NaN and propagates to a NaN rsi.  rsiOf encodes exactly that
case split on exact rationals. -/

/-- Positive part, as produced by delta.where(delta greater than 0, 0);
the NaN first delta also maps to 0. -/
def posPart (d : ℚ) : ℚ := if 0 < d then d else 0

/-- Negated negative part, as produced by negating delta.where(delta less
than 0, 0); the NaN first delta also maps to 0. -/
def negPart (d : ℚ) : ℚ := if d < 0 then -d else 0

/-- The gain series: position 0 holds 0 (coerced NaN delta), position i holds
the positive part of close i minus close (i-1). -/
def gains (close : List ℚ) : List ℚ :=
  match close with
  | [] => []
  | _ :: _ => 0 :: List.zipWith (fun a b => posPart (b - a)) close close.tail

/-- The loss series (absolute value of negative deltas). -/
def losses (close : List ℚ) : List ℚ :=
  match close with
  | [] => []
  | _ :: _ => 0 :: List.zipWith (fun a b => negPart (b - a)) close close.tail

/-- rsi = 100 - 100 / (1 + gain / loss) under IEEE float semantics: a zero
average loss with a positive average gain gives rs = +infinity and rsi = 100;
a zero average loss with a zero average gain gives rs = NaN and a NaN rsi. -/
def rsiOf (g l : ℚ) : Option ℚ :=
  if l = 0 then (if g = 0 then none else some 100)
  else some (100 - 100 / (1 + g / l))

/-- calculate_rsi at one position. -/
def rsiAt (w : ℕ) (close : List ℚ) (i : ℕ) : Option ℚ :=
  match rollAt meanFn w (gains close) i, rollAt meanFn w (losses close) i with
  | some g, some l => rsiOf g l
  | _, _ => none

/-- calculate_rsi for one period w, as a series aligned with the input. -/
def calculate_rsi (w : ℕ) (close : List ℚ) : List (Option ℚ) :=
  (List.range close.length).map (rsiAt w close)

/-! ### KDJ (S4 script: calculate_kdj)

rsv = (close - rolling_min(low, n)) / (rolling_max(high, n) - rolling_min(low, n)) * 100.
When the rolling range is zero the numerator is zero as well (the close lies
between the rolling extremes), so the float quotient is 0 / 0 = NaN: modelled
as none.  The smoothing uses Series.ewm(alpha, adjust=False).mean(), whose
treatment of NaN inputs (with the default ignore_na=False) is: a NaN
contributes no new observation, the output at a NaN position repeats the last
smoothed value, and the relative weights of the surviving observations decay
by (1 - alpha) per position, NaN positions included.  ewmStep tracks the
weighted numerator and the weight sum; their quotient is the pandas output. -/

/-- Raw stochastic value at one position; none on the warm-up prefix and at
zero-range positions (0 / 0 is NaN). -/
def rsvAt (n : ℕ) (high low close : List ℚ) (i : ℕ) : Option ℚ :=
  match rollAt maxFn n high i, rollAt minFn n low i with
  | some hm, some lm =>
      if hm - lm = 0 then none
      else some ((close.getD i 0 - lm) / (hm - lm) * 100)
  | _, _ => none

/-- The rsv series of calculate_kdj. -/
def rsvList (n : ℕ) (high low close : List ℚ) : List (Option ℚ) :=
  (List.range close.length).map (rsvAt n high low close)

/-- One step of ewm(alpha=a, adjust=False).mean() on a nullable input,
carrying the pair (weighted numerator, weight sum); none until the first
valid observation. -/
def ewmStep (a : ℚ) : Option (ℚ × ℚ) → Option ℚ → Option (ℚ × ℚ)
  | none, none => none
  | none, some x => some (x, 1)
  | some s, none => some ((1 - a) * s.1, (1 - a) * s.2)
  | some s, some x => some ((1 - a) * s.1 + a * x, (1 - a) * s.2 + a)

/-- Series.ewm(alpha=a, adjust=False).mean() on a nullable series. -/
def ewmNan (a : ℚ) (xs : List (Option ℚ)) : List (Option ℚ) :=
  ((xs.scanl (ewmStep a) none).tail).map (Option.map fun s => s.1 / s.2)

/-- The K line of calculate_kdj: rsv smoothed with alpha = 1 / m1. -/
def kdj_k (n m1 : ℕ) (high low close : List ℚ) : List (Option ℚ) :=
  ewmNan (1 / (m1 : ℚ)) (rsvList n high low close)

/-- The D line of calculate_kdj: K smoothed with alpha = 1 / m2. -/
def kdj_d (n m1 m2 : ℕ) (high low close : List ℚ) : List (Option ℚ) :=
  ewmNan (1 / (m2 : ℚ)) (kdj_k n m1 high low close)

/-- The J line of calculate_kdj: 3 K - 2 D, null where either input is. -/
def kdj_j (n m1 m2 : ℕ) (high low close : List ℚ) : List (Option ℚ) :=
  List.zipWith
    (fun k d =>
      match k, d with
      | some k, some d => some (3 * k - 2 * d)
      | _, _ => none)
    (kdj_k n m1 high low close) (kdj_d n m1 m2 high low close)

/-! ### MACD (S4 script: calculate_macd)

Series.ewm(span=s, adjust=False).mean() on the total close series, i.e. the
recursion y0 = x0, y = (1 - a) y + a x with a = 2 / (s + 1). -/

/-- Recursive exponential moving average on a total series. -/
def ewma (a : ℚ) : List ℚ → List ℚ
  | [] => []
  | x :: t => t.scanl (fun y v => (1 - a) * y + a * v) x

/-- The smoothing factor of a span-parameterised ewm. -/
def spanAlpha (s : ℕ) : ℚ := 2 / ((s : ℚ) + 1)

/-- macd_dif: ewm(span=fast) minus ewm(span=slow) of close. -/
def calculate_macd_dif (fast slow : ℕ) (close : List ℚ) : List ℚ :=
  List.zipWith (fun a b => a - b) (ewma (spanAlpha fast) close) (ewma (spanAlpha slow) close)

/-- macd_dea: ewm(span=signal) of macd_dif. -/
def calculate_macd_dea (fast slow signal : ℕ) (close : List ℚ) : List ℚ :=
  ewma (spanAlpha signal) (calculate_macd_dif fast slow close)

/-! ### Multi-period returns and raw relative strength
(S4 script: calculate_price_changes, calculate_rs_raw) -/

/-- Series.pct_change(p) at one position: close i / close (i - p) - 1, NaN
for the first p positions.  Closes are positive in the data model, so the
denominator is nonzero wherever the value is produced. -/
def pctChangeAt (p : ℕ) (close : List ℚ) (i : ℕ) : Option ℚ :=
  if p ≤ i then some (close.getD i 0 / close.getD (i - p) 0 - 1) else none

/-- calculate_price_changes for one period p: pct_change(p) * 100. -/
def calculate_price_change (p : ℕ) (close : List ℚ) : List (Option ℚ) :=
  (List.range close.length).map (fun i => (pctChangeAt p close i).map (· * 100))

/-- calculate_rs_raw at one position: 0.4, 0.3, 0.2, 0.1 weighted sum of the
20, 60, 120 and 250 day pct_change values; a NaN term makes the sum NaN. -/
def rs_rawAt (close : List ℚ) (i : ℕ) : Option ℚ :=
  match pctChangeAt 20 close i, pctChangeAt 60 close i,
      pctChangeAt 120 close i, pctChangeAt 250 close i with
  | some c20, some c60, some c120, some c250 =>
      some ((2 / 5) * c20 + (3 / 10) * c60 + (1 / 5) * c120 + (1 / 10) * c250)
  | _, _, _, _ => none

/-- calculate_rs_raw as a series. -/
def calculate_rs_raw (close : List ℚ) : List (Option ℚ) :=
  (List.range close.length).map (rs_rawAt close)

/-! ### The full per-symbol engine (S4 script: calculate_all_indicators)

calculate_all_indicators sorts the frame by date and then assigns every
indicator column; no operation drops or adds a row.  The model projects the
fixed IndicatorRow schema from the per-column functions above (one
representative window per family; the remaining windows are instances of the
same column functions).  round_indicators only reformats values (NaN stays
NaN) and is omitted. -/

/-- One daily OHLCV bar of the S4 input frame. -/
structure Bar where
  date : ℤ
  high : ℚ
  low : ℚ
  close : ℚ
  volume : ℚ
deriving DecidableEq, Inhabited

/-- One computed indicator row of the S4 output frame. -/
structure IndicatorRow where
  date : ℤ
  ma5 : Option ℚ
  ma20 : Option ℚ
  ma60 : Option ℚ
  ma250 : Option ℚ
  rsi14 : Option ℚ
  macd_dif : ℚ
  macd_dea : ℚ
  kdjK : Option ℚ
  kdjD : Option ℚ
  kdjJ : Option ℚ
  change_20d : Option ℚ
  volume_ma5 : Option ℚ
  high_250d : Option ℚ
  low_250d : Option ℚ
  rs_raw : Option ℚ
deriving DecidableEq, Inhabited

/-- Ordering of bars by date, used by df.sort_values applied to date. -/
def barLe (a b : Bar) : Prop := a.date ≤ b.date

instance : DecidableRel barLe := fun a b => inferInstanceAs (Decidable (a.date ≤ b.date))

instance : IsTotal Bar barLe := ⟨fun a b => le_total a.date b.date⟩

instance : IsTrans Bar barLe := ⟨fun _ _ _ h1 h2 => le_trans h1 h2⟩

/-- calculate_all_indicators: sort by date, compute every column, one output
row per input row. -/
def calculate_all_indicators (bars : List Bar) : List IndicatorRow :=
  let sorted := List.insertionSort barLe bars
  let close := sorted.map Bar.close
  let high := sorted.map Bar.high
  let low := sorted.map Bar.low
  let volume := sorted.map Bar.volume
  (List.range sorted.length).map fun i =>
    { date := (sorted.getD i default).date
      ma5 := (calculate_ma 5 close).getD i none
      ma20 := (calculate_ma 20 close).getD i none
      ma60 := (calculate_ma 60 close).getD i none
      ma250 := (calculate_ma 250 close).getD i none
      rsi14 := (calculate_rsi 14 close).getD i none
      macd_dif := (calculate_macd_dif 12 26 close).getD i 0
      macd_dea := (calculate_macd_dea 12 26 9 close).getD i 0
      kdjK := (kdj_k 9 3 high low close).getD i none
      kdjD := (kdj_d 9 3 3 high low close).getD i none
      kdjJ := (kdj_j 9 3 3 high low close).getD i none
      change_20d := (calculate_price_change 20 close).getD i none
      volume_ma5 := (calculate_volume_ma 5 volume).getD i none
      high_250d := (calculate_high_range 250 high).getD i none
      low_250d := (calculate_low_range 250 low).getD i none
      rs_raw := (calculate_rs_raw close).getD i none }

/-! ### The Supabase indicator job (calculate_indicators.py)

calculate_mytt returns a group untouched when it has fewer than 60 bars, so
such a group carries no indicator columns at all; this is modelled by an
inds field that is none (columns absent) versus some list of nullable
values (columns present).  The MyTT column formulas themselves live in the
external MyTT library, outside this repository, so the computation for
groups of 60 or more bars is a parameter f of the model.  The record loop of
main keeps a field only when the column exists and the value is not NaN, and
appends a record only when it kept at least one field beyond symbol and
date. -/

/-- One daily bar of the Supabase job. -/
structure SBar where
  symbol : ℕ
  date : ℤ
  close : ℚ
deriving DecidableEq, Inhabited

/-- One row after calculate_mytt: the bar plus the indicator columns, which
are absent (none) when the group was returned untouched. -/
structure SRow where
  bar : SBar
  inds : Option (List (Option ℚ))
deriving DecidableEq, Inhabited

/-- calculate_mytt: groups shorter than 60 bars are returned unchanged (no
indicator columns); otherwise the external MyTT computation f supplies the
indicator columns of every row. -/
def calculate_mytt (f : List SBar → List (List (Option ℚ))) (group : List SBar) :
    List SRow :=
  if group.length < 60 then group.map (fun b => { bar := b, inds := none })
  else (group.zip (f group)).map (fun p => { bar := p.1, inds := some p.2 })

/-- The fields kept for one record: nothing when the indicator columns are
absent, and only the non-NaN values when they are present. -/
def recordFields : Option (List (Option ℚ)) → List ℚ
  | none => []
  | some iv => iv.filterMap id

/-- The records_to_upsert loop of main: restrict to the target date and keep
a record only when it has at least one indicator field. -/
def records_to_upsert (rows : List SRow) (target : ℤ) : List (SBar × List ℚ) :=
  (rows.filter (fun r => decide (r.bar.date = target))).filterMap fun r =>
    if (recordFields r.inds).length = 0 then none
    else some (r.bar, recordFields r.inds)

/-! ### Merge-and-persist (S1 script: merge_data; download_data_smart.py:
update_or_append)

Rows are keyed by date and carry an opaque payload val standing for the bar
columns.  merge_data concatenates existing and new, drops duplicate dates
keeping the last occurrence (pandas drop_duplicates with keep set to last,
so the freshly downloaded copy survives), and sorts ascending by date.  The
empty-existing shortcut returns a copy of the new frame; the trailing
calculate_derived_fields call re-sorts every non-early-return result by
date, which the model folds into one sort (it recomputes derived columns
from the base columns, which the opaque payload absorbs).  The relative
order of equal dates is never observable because every sorted result has
distinct dates; the model uses a stable insertion sort. -/

/-- One persisted row: a date key and an opaque payload. -/
structure MRow where
  date : ℤ
  val : ℚ
deriving DecidableEq, Inhabited

/-- The date column of a frame. -/
def dates (l : List MRow) : List ℤ := l.map MRow.date

/-- drop_duplicates on the date key with keep set to last: a row survives
exactly when no later row has the same date. -/
def dedupKeepLast : List MRow → List MRow
  | [] => []
  | r :: rest =>
      if ∃ s ∈ rest, s.date = r.date then dedupKeepLast rest
      else r :: dedupKeepLast rest

/-- Ordering of merged rows by date (sort_values on the date column). -/
def rowLe (a b : MRow) : Prop := a.date ≤ b.date

instance : DecidableRel rowLe := fun a b => inferInstanceAs (Decidable (a.date ≤ b.date))

instance : IsTotal MRow rowLe := ⟨fun a b => le_total a.date b.date⟩

instance : IsTrans MRow rowLe := ⟨fun _ _ _ h1 h2 => le_trans h1 h2⟩

/-- sort_values on the date column. -/
def sortByDate (l : List MRow) : List MRow := List.insertionSort rowLe l

/-- merge_data of the S1 script (the date-keyed kernel; derived-field
recomputation only rewrites payload columns). -/
def merge_data (existing new : List MRow) : List MRow :=
  if existing = [] then sortByDate new
  else if new = [] then existing
  else sortByDate (dedupKeepLast (existing ++ new))

/-- Lookup of the row stored under a date (frames with distinct dates hold
at most one). -/
def lookupDate (d : ℤ) (l : List MRow) : Option MRow :=
  l.find? (fun r => decide (r.date = d))

/-- A frame that is strictly ascending in its date key: the shape of every
persisted per-symbol series (one row per date, sorted ascending). -/
def StrictByDate (l : List MRow) : Prop :=
  l.Pairwise (fun a b => a.date < b.date)

instance : DecidablePred StrictByDate := fun l =>
  inferInstanceAs (Decidable (l.Pairwise (fun a b : MRow => a.date < b.date)))

/-- update_or_append of download_data_smart.py: when the file exists, merge
by date (new wins), then persist only when the merged frame is strictly
longer than the stored one, reporting the row-count difference; otherwise
leave the file untouched and report 0.  A missing file is created from the
new data.  The result is the stored frame after the call and the reported
count of added records. -/
def update_or_append (stored : Option (List MRow)) (newData : List MRow) :
    Option (List MRow) × ℕ :=
  match stored with
  | none => (some newData, newData.length)
  | some existing =>
      let combined := sortByDate (dedupKeepLast (existing ++ newData))
      if existing.length < combined.length then
        (some combined, combined.length - existing.length)
      else (some existing, 0)

/-! ### Incremental range resolver (S1 script: calculate_download_range)

Dates are modelled as day numbers.  END_DATE in the script is the current
day, so the single parameter today stands for both the gap reference and the
window end; the timedelta subtraction for the window start and the whole-day
truncation of the gap are exact on day numbers. -/

/-- The INCREMENTAL_CONFIG dictionary. -/
structure IncrementalConfig where
  force_full_download : Bool
  lookback_days : ℤ
  min_gap_days : ℤ

/-- calculate_download_range: none means skip (no download); some (s, e)
means download the window from s to e. -/
def calculate_download_range (cfg : IncrementalConfig) (default_start today : ℤ)
    (latest : Option ℤ) : Option (ℤ × ℤ) :=
  if cfg.force_full_download then some (default_start, today)
  else
    match latest with
    | none => some (default_start, today)
    | some latest_dt =>
        if today - latest_dt ≤ cfg.min_gap_days then none
        else some (latest_dt - cfg.lookback_days, today)

/-! ### Cross-sectional ranker (S4 script: calculate_rs_rating_for_stocks)

The script drops rows with NaN rs_raw, returns early with no ratings when
nothing survives, ranks each date group with rank(pct=True, method='min')
scaled by 100, and merges the ratings back into each file with a left join
on the date, so rows without a rating stay NaN.  rank with method='min' and
pct=True assigns 100 * (1 + the count of strictly smaller values) / n inside
a group of n non-null values.  The final one-decimal rounding is a display
step on floats and is omitted. -/

/-- Tie-aware minimum-rank percentile of x inside its population. -/
def rank_pct_min (pop : List ℚ) (x : ℚ) : ℚ :=
  ((pop.countP (fun y => decide (y < x)) : ℚ) + 1) / (pop.length : ℚ)

/-- The rating assigned to raw strength x: percentile rank scaled to 0-100. -/
def rs_rating_of (pop : List ℚ) (x : ℚ) : ℚ := rank_pct_min pop x * 100

/-- One input row of the ranking step. -/
structure RsRow where
  symbol : ℕ
  date : ℤ
  rs_raw : Option ℚ
deriving DecidableEq, Inhabited

/-- The ranking population for one date: the non-null rs_raw values of that
date (the dropna step removes the null ones before grouping). -/
def popFor (rows : List RsRow) (d : ℤ) : List ℚ :=
  rows.filterMap (fun r => if r.date = d then r.rs_raw else none)

/-- The rating set produced by the ranking step: one (symbol, date, rating)
per surviving row. -/
def rs_ratings (rows : List RsRow) : List (ℕ × ℤ × ℚ) :=
  rows.filterMap fun r =>
    r.rs_raw.map fun v => (r.symbol, r.date, rs_rating_of (popFor rows r.date) v)

/-- The rating a (symbol, date) cell holds after the left-join write-back:
the computed rating when one exists, otherwise null. -/
def final_rating (rows : List RsRow) (s : ℕ) (d : ℤ) : Option ℚ :=
  ((rs_ratings rows).find? (fun t => decide (t.1 = s ∧ t.2.1 = d))).map (fun t => t.2.2)

/-! ### A concrete bar series exhibiting a zero stochastic range

Nine bars with highs 2, lows 1, closes 3/2, followed by nine flat bars at 5:
the 9-bar window ending at position 17 has rolling maximum of the highs equal
to the rolling minimum of the lows (both 5), so rsv is undefined there. -/

/-- Highs of the zero-range example series. -/
def kdjZeroHighs : List ℚ := [2, 2, 2, 2, 2, 2, 2, 2, 2, 5, 5, 5, 5, 5, 5, 5, 5, 5]

/-- Lows of the zero-range example series. -/
def kdjZeroLows : List ℚ := [1, 1, 1, 1, 1, 1, 1, 1, 1, 5, 5, 5, 5, 5, 5, 5, 5, 5]

/-- Closes of the zero-range example series. -/
def kdjZeroCloses : List ℚ :=
  [3/2, 3/2, 3/2, 3/2, 3/2, 3/2, 3/2, 3/2, 3/2, 5, 5, 5, 5, 5, 5, 5, 5, 5]

/-! ## Helper lemmas on positions and windows -/

theorem getD_map_range {α : Type} (f : ℕ → Option α) {n i : ℕ} (hi : i < n) :
    ((List.range n).map f).getD i none = f i := by
  rw [List.getD_eq_getElem?_getD, List.getElem?_map, List.getElem?_range hi]
  rfl

theorem winAt_length {xs : List ℚ} {i w : ℕ} (hw : w ≤ i + 1) (hi : i < xs.length) :
    (winAt xs i w).length = w := by
  simp only [winAt, List.length_drop, List.length_take]
  omega

theorem winAt_subset {xs : List ℚ} {i w : ℕ} : winAt xs i w ⊆ xs := by
  intro x hx
  exact List.take_subset _ _ (List.drop_subset _ _ hx)

theorem gains_length (close : List ℚ) : (gains close).length = close.length := by
  cases close with
  | nil => rfl
  | cons c t => simp [gains]

theorem losses_length (close : List ℚ) : (losses close).length = close.length := by
  cases close with
  | nil => rfl
  | cons c t => simp [losses]

theorem mem_zipWith_nonneg {f : ℚ → ℚ → ℚ} (hf : ∀ a b, 0 ≤ f a b) :
    ∀ (as bs : List ℚ), ∀ x ∈ List.zipWith f as bs, 0 ≤ x
  | [], _, x, hx => by simp at hx
  | _ :: _, [], x, hx => by simp at hx
  | a :: as, b :: bs, x, hx => by
      rcases List.mem_cons.mp hx with h | h
      · exact h ▸ hf a b
      · exact mem_zipWith_nonneg hf as bs x h

theorem posPart_nonneg (d : ℚ) : 0 ≤ posPart d := by
  unfold posPart
  split <;> linarith

theorem negPart_nonneg (d : ℚ) : 0 ≤ negPart d := by
  unfold negPart
  split <;> linarith

theorem gains_nonneg (close : List ℚ) : ∀ x ∈ gains close, 0 ≤ x := by
  cases close with
  | nil => simp [gains]
  | cons c t =>
      intro x hx
      rcases List.mem_cons.mp hx with h | h
      · simp [h]
      · exact mem_zipWith_nonneg (fun a b => posPart_nonneg (b - a)) _ _ x h

theorem losses_nonneg (close : List ℚ) : ∀ x ∈ losses close, 0 ≤ x := by
  cases close with
  | nil => simp [losses]
  | cons c t =>
      intro x hx
      rcases List.mem_cons.mp hx with h | h
      · simp [h]
      · exact mem_zipWith_nonneg (fun a b => negPart_nonneg (b - a)) _ _ x h

theorem meanFn_nonneg {l : List ℚ} (h : ∀ x ∈ l, 0 ≤ x) : 0 ≤ meanFn l :=
  div_nonneg (List.sum_nonneg h) (Nat.cast_nonneg _)

/-! ## C1: null exactly on insufficient history -/

/-- C1 (amended).  For every window length w and every position i of the
series, the moving average, volume moving average and the rolling high/low
extremes are null exactly on the first w - 1 positions and non-null from the
w-th position onward.  RSI at window w is also null on the first w - 1
positions, but from the w-th position onward it is null exactly when the
trailing window has zero average gain and zero average loss (a flat close
window), because the source computes rs = gain / loss on floats and 0 / 0 is
NaN; so the claimed non-null-from-the-w-th-position-onward pattern holds for
the moving averages, volume moving averages and rolling extremes, and fails
for RSI only on flat windows. -/
theorem C1_null_on_insufficient_history (w : ℕ) (xs : List ℚ) (i : ℕ)
    (hw : 1 ≤ w) (hi : i < xs.length) :
    ((calculate_ma w xs).getD i none = none ↔ i + 1 < w)
  ∧ ((calculate_volume_ma w xs).getD i none = none ↔ i + 1 < w)
  ∧ ((calculate_high_range w xs).getD i none = none ↔ i + 1 < w)
  ∧ ((calculate_low_range w xs).getD i none = none ↔ i + 1 < w)
  ∧ ((calculate_rsi w xs).getD i none = none ↔
      (i + 1 < w ∨ (meanFn (winAt (gains xs) i w) = 0 ∧ meanFn (winAt (losses xs) i w) = 0))) := by
  have hroll : ∀ g : List ℚ → ℚ,
      (((List.range xs.length).map (rollAt g w xs)).getD i none = none ↔ i + 1 < w) := by
    intro g
    rw [getD_map_range _ hi]
    unfold rollAt
    split <;> simp <;> omega
  refine ⟨hroll meanFn, hroll meanFn, hroll maxFn, hroll minFn, ?_⟩
  rw [calculate_rsi, getD_map_range _ hi]
  unfold rsiAt rollAt
  by_cases hwi : w ≤ i + 1
  · have hni : ¬ (i + 1 < w) := by omega
    simp only [hwi, if_pos, rsiOf, hni, false_or]
    by_cases hl0 : meanFn (winAt (losses xs) i w) = 0 <;>
      by_cases hg0 : meanFn (winAt (gains xs) i w) = 0 <;>
        simp [hl0, hg0]
  · have hlt : i + 1 < w := by omega
    simp [hwi, hlt]

/-- C1 witness: window 2 over the three-bar series 1, 2, 3 at position 1
(the w-th position, where every windowed field is non-null). -/
theorem C1_null_on_insufficient_history_witness :
    ((calculate_ma 2 [(1:ℚ), 2, 3]).getD 1 none = none ↔ 1 + 1 < 2)
  ∧ ((calculate_volume_ma 2 [(1:ℚ), 2, 3]).getD 1 none = none ↔ 1 + 1 < 2)
  ∧ ((calculate_high_range 2 [(1:ℚ), 2, 3]).getD 1 none = none ↔ 1 + 1 < 2)
  ∧ ((calculate_low_range 2 [(1:ℚ), 2, 3]).getD 1 none = none ↔ 1 + 1 < 2)
  ∧ ((calculate_rsi 2 [(1:ℚ), 2, 3]).getD 1 none = none ↔
      (1 + 1 < 2 ∨ (meanFn (winAt (gains [(1:ℚ), 2, 3]) 1 2) = 0
        ∧ meanFn (winAt (losses [(1:ℚ), 2, 3]) 1 2) = 0))) :=
  C1_null_on_insufficient_history 2 [(1:ℚ), 2, 3] 1 (by decide) (by decide)

/-- C1 counterexample to the claim as stated: a constant close series of
length 6 with RSI window 6.  Position 5 is the 6-th (w-th) position, where
the claim demands a non-null RSI, but the computed RSI is null because the
flat window makes the average gain and the average loss both zero and the
float quotient 0 / 0 is NaN. -/
theorem C1_counterexample :
    (calculate_rsi 6 [(10:ℚ), 10, 10, 10, 10, 10]).getD 5 none = none
  ∧ ([(10:ℚ), 10, 10, 10, 10, 10].length = 6) := by
  constructor
  · norm_num [calculate_rsi, rsiAt, rollAt, meanFn, winAt, gains, losses, posPart,
      negPart, rsiOf]
  · rfl

/-! ## C7: RSI bounds and the zero-average-loss case -/

theorem rsiOf_bounds {g l x : ℚ} (hg : 0 ≤ g) (hl : 0 ≤ l)
    (hx : rsiOf g l = some x) : 0 ≤ x ∧ x ≤ 100 := by
  unfold rsiOf at hx
  by_cases h0 : l = 0
  · by_cases hg0 : g = 0
    · simp [h0, hg0] at hx
    · simp [h0, hg0] at hx
      constructor <;> linarith [hx]
  · simp [h0] at hx
    have hlpos : 0 < l := lt_of_le_of_ne hl (Ne.symm h0)
    have hr : 0 ≤ g / l := div_nonneg hg hlpos.le
    have h1 : (0:ℚ) < 1 + g / l := by linarith
    have hle : 100 / (1 + g / l) ≤ 100 := by
      apply div_le_self (by norm_num)
      linarith
    have hpos : 0 < 100 / (1 + g / l) := by positivity
    constructor <;> linarith [hx]

/-- C7 (amended).  Every non-null computed RSI value lies in the interval
from 0 to 100; and at a position with at least w bars of history, a zero
trailing-window average loss yields RSI = 100 provided the average gain is
nonzero — when the average gain is also zero (flat window) the source
produces the float quotient 0 / 0 = NaN and the RSI is null rather than
100. -/
theorem C7_rsi_bounds (w : ℕ) (close : List ℚ) (i : ℕ) (x : ℚ)
    (hi : i < close.length) (hw : w ≤ i + 1) :
    ((calculate_rsi w close).getD i none = some x → 0 ≤ x ∧ x ≤ 100)
  ∧ (meanFn (winAt (losses close) i w) = 0 → meanFn (winAt (gains close) i w) ≠ 0 →
      (calculate_rsi w close).getD i none = some 100)
  ∧ (meanFn (winAt (losses close) i w) = 0 → meanFn (winAt (gains close) i w) = 0 →
      (calculate_rsi w close).getD i none = none) := by
  rw [calculate_rsi, getD_map_range _ hi]
  unfold rsiAt rollAt
  simp only [hw, if_pos]
  have hg : 0 ≤ meanFn (winAt (gains close) i w) :=
    meanFn_nonneg (fun x hx => gains_nonneg close x (winAt_subset hx))
  have hl : 0 ≤ meanFn (winAt (losses close) i w) :=
    meanFn_nonneg (fun x hx => losses_nonneg close x (winAt_subset hx))
  refine ⟨fun hx => rsiOf_bounds hg hl hx, fun h0 hg0 => ?_, fun h0 hg0 => ?_⟩
  · simp [rsiOf, h0, hg0]
  · simp [rsiOf, h0, hg0]

/-- C7 witness: the rising series 1, 2, 3 with window 2 at position 2 has a
zero average loss and a nonzero average gain, so its RSI is 100, which lies
within the claimed bounds. -/
theorem C7_rsi_bounds_witness :
    (0 ≤ (100:ℚ) ∧ (100:ℚ) ≤ 100)
  ∧ (calculate_rsi 2 [(1:ℚ), 2, 3]).getD 2 none = some 100 := by
  have h := C7_rsi_bounds 2 [(1:ℚ), 2, 3] 2 100 (by decide) (by decide)
  have h100 : (calculate_rsi 2 [(1:ℚ), 2, 3]).getD 2 none = some 100 :=
    h.2.1 (by norm_num [meanFn, winAt, gains, losses, posPart, negPart])
      (by norm_num [meanFn, winAt, gains, losses, posPart, negPart])
  exact ⟨h.1 h100, h100⟩

/-- C7 counterexample to the claim as stated: a constant close series of
length 14 with RSI window 14.  At position 13 the trailing-window average
loss is exactly zero, where the claim demands RSI = 100, but the computed
RSI is null because the average gain is zero as well and the float quotient
0 / 0 is NaN. -/
theorem C7_counterexample :
    meanFn (winAt (losses [(7:ℚ), 7, 7, 7, 7, 7, 7, 7, 7, 7, 7, 7, 7, 7]) 13 14) = 0
  ∧ (calculate_rsi 14 [(7:ℚ), 7, 7, 7, 7, 7, 7, 7, 7, 7, 7, 7, 7, 7]).getD 13 none = none := by
  constructor <;>
    norm_num [calculate_rsi, rsiAt, rollAt, meanFn, winAt, gains, losses, posPart,
      negPart, rsiOf]

/-! ## C2: one output row per input row versus dropped upsert records -/

theorem calculate_mytt_inds_none {f : List SBar → List (List (Option ℚ))}
    {group : List SBar} (hshort : group.length < 60) :
    ∀ r ∈ calculate_mytt f group, r.inds = none := by
  intro r hr
  unfold calculate_mytt at hr
  rw [if_pos hshort] at hr
  rcases List.mem_map.mp hr with ⟨b, _, rfl⟩
  rfl

theorem records_to_upsert_eq_nil {rows : List SRow} {target : ℤ}
    (h : ∀ r ∈ rows, r.inds = none) : records_to_upsert rows target = [] := by
  unfold records_to_upsert
  rw [List.filterMap_eq_nil_iff]
  intro r hr
  rw [h r (List.mem_of_mem_filter hr)]
  rfl

/-- C2 (amended).  The S4 engine calculate_all_indicators is a total
function producing exactly one output row per input row (insufficient
history only yields null fields, never a dropped row).  The Supabase job
calculate_indicators.py, however, returns groups with fewer than 60 bars
untouched — without indicator columns — and its record loop then omits every
record that has no non-null indicator field, so such rows produce no output
record at all. -/
theorem C2_one_row_per_bar (bars : List Bar) (f : List SBar → List (List (Option ℚ)))
    (group : List SBar) (target : ℤ) (hshort : group.length < 60) :
    (calculate_all_indicators bars).length = bars.length
  ∧ records_to_upsert (calculate_mytt f group) target = [] := by
  constructor
  · simp [calculate_all_indicators, (List.perm_insertionSort barLe bars).length_eq]
  · exact records_to_upsert_eq_nil (calculate_mytt_inds_none hshort)

/-- C2 witness: a one-bar engine input yields one output row, and a one-bar
group (shorter than 60 bars) yields an empty upsert record list. -/
theorem C2_one_row_per_bar_witness :
    (calculate_all_indicators [(⟨0, 2, 1, 3/2, 100⟩ : Bar)]).length
      = [(⟨0, 2, 1, 3/2, 100⟩ : Bar)].length
  ∧ records_to_upsert (calculate_mytt (fun _ => []) [(⟨1, 0, 10⟩ : SBar)]) 0 = [] :=
  C2_one_row_per_bar _ _ _ _ (by decide)

/-- C2 counterexample to the claim as stated: a symbol with a single bar
dated on the target date.  The claim demands one output record per input
row with null fields, but the Supabase job upserts no record at all for this
row: the group is shorter than 60 bars, so it carries no indicator columns,
and the record loop skips records with no indicator field. -/
theorem C2_counterexample :
    records_to_upsert (calculate_mytt (fun _ => []) [(⟨1, 0, 10⟩ : SBar)]) 0 = []
  ∧ [(⟨1, 0, 10⟩ : SBar)].length = 1 := by
  decide

/-! ## C6: zero stochastic range does not yield a null K -/

/-- C6: evaluation of calculate_kdj on the zero-range example series.  At
position 17 the 9-bar rolling range is zero, so rsv is null (NaN); the claim
(and the spec) demand a null K there, but the pandas ewm smoothing skips the
NaN and repeats the previous smoothed value: K at position 17 is non-null
and equals K at position 16.  The D and J lines are smoothings and
combinations of K and are likewise non-null there. -/
theorem C6_zero_range_carries_forward :
    rsvAt 9 kdjZeroHighs kdjZeroLows kdjZeroCloses 17 = none
  ∧ (kdj_k 9 3 kdjZeroHighs kdjZeroLows kdjZeroCloses).getD 17 none = some (643300/6561)
  ∧ (kdj_k 9 3 kdjZeroHighs kdjZeroLows kdjZeroCloses).getD 16 none = some (643300/6561) := by
  refine ⟨?_, ?_, ?_⟩ <;>
    norm_num [kdjZeroHighs, kdjZeroLows, kdjZeroCloses, kdj_k, ewmNan, ewmStep, rsvList,
      rsvAt, rollAt, maxFn, minFn, winAt, List.scanl, List.range_succ]

/-! ## C8: the incremental range resolver -/

/-- C8.  With force_full_download set, or with no persisted date, the
resolver returns the full window from the genesis date to today; otherwise a
gap of at most min_gap_days reports skip, and a larger gap returns the
window starting lookback_days before the latest persisted date and ending
today.  In particular a latest persisted date of today - 5 with
lookback_days = 10 yields a window starting 15 days before today. -/
theorem C8_download_range (cfg : IncrementalConfig) (default_start today l : ℤ)
    (lat : Option ℤ) :
    (cfg.force_full_download = true →
      calculate_download_range cfg default_start today lat = some (default_start, today))
  ∧ (cfg.force_full_download = false →
      calculate_download_range cfg default_start today none = some (default_start, today))
  ∧ (cfg.force_full_download = false → today - l ≤ cfg.min_gap_days →
      calculate_download_range cfg default_start today (some l) = none)
  ∧ (cfg.force_full_download = false → cfg.min_gap_days < today - l →
      calculate_download_range cfg default_start today (some l)
        = some (l - cfg.lookback_days, today))
  ∧ (cfg.force_full_download = false → cfg.lookback_days = 10 → cfg.min_gap_days = 1 →
      l = today - 5 →
      calculate_download_range cfg default_start today (some l)
        = some (today - 15, today)) := by
  unfold calculate_download_range
  refine ⟨fun hf => by simp [hf], fun hf => by simp [hf], fun hf hgap => ?_,
    fun hf hgap => ?_, fun hf hlb hmg hl => ?_⟩
  · simp [hf, hgap]
  · simp only [hf, Bool.false_eq_true, if_false]
    rw [if_neg (by omega)]
  · subst hl
    simp only [hf, Bool.false_eq_true, if_false, hmg, hlb]
    rw [if_neg (by omega)]
    have h15 : today - 5 - 10 = today - 15 := by ring
    rw [h15]

/-- C8 witness: the four resolver behaviours at concrete dates (day 100,
genesis day 0, latest persisted day 95, gap 5, lookback 10, min gap 1). -/
theorem C8_download_range_witness :
    calculate_download_range ⟨true, 10, 1⟩ 0 100 (some 50) = some (0, 100)
  ∧ calculate_download_range ⟨false, 10, 1⟩ 0 100 none = some (0, 100)
  ∧ calculate_download_range ⟨false, 10, 1⟩ 0 100 (some 100) = none
  ∧ calculate_download_range ⟨false, 10, 1⟩ 0 100 (some 95) = some (85, 100) :=
  ⟨(C8_download_range ⟨true, 10, 1⟩ 0 100 0 (some 50)).1 rfl,
   (C8_download_range ⟨false, 10, 1⟩ 0 100 0 none).2.1 rfl,
   (C8_download_range ⟨false, 10, 1⟩ 0 100 100 none).2.2.1 rfl (by decide),
   (C8_download_range ⟨false, 10, 1⟩ 0 100 95 none).2.2.2.2 rfl rfl rfl (by decide)⟩

/-! ## C9: null raw strength keeps a null rating -/

/-- C9.  A row whose raw relative strength is null is excluded from the
ranking population (the dropna step removes it before grouping), produces no
entry in the rating set, and after the left-join write-back its (symbol,
date) cell keeps a null rating — no default such as 0 is assigned.  When
every row has null raw strength the ranking step returns the empty rating
set (the early return of the script) rather than an error. -/
theorem C9_null_raw_null_rating (rows : List RsRow) (r : RsRow) (hr : r ∈ rows)
    (hkeys : (rows.map fun x => (x.symbol, x.date)).Nodup) (hnull : r.rs_raw = none) :
    final_rating rows r.symbol r.date = none
  ∧ ((∀ x ∈ rows, x.rs_raw = none) → rs_ratings rows = []) := by
  constructor
  · unfold final_rating
    have hnone : (rs_ratings rows).find?
        (fun t => decide (t.1 = r.symbol ∧ t.2.1 = r.date)) = none := by
      rw [List.find?_eq_none]
      intro t ht
      unfold rs_ratings at ht
      rcases List.mem_filterMap.mp ht with ⟨x, hx, hmap⟩
      cases hxr : x.rs_raw with
      | none => rw [hxr] at hmap; exact Option.noConfusion hmap
      | some v =>
          rw [hxr] at hmap
          injection hmap with hmap
          subst hmap
          simp only [decide_eq_true_eq, not_and]
          intro hs hd
          have hxe : x = r :=
            List.inj_on_of_nodup_map hkeys hx hr (by rw [Prod.mk.injEq]; exact ⟨hs, hd⟩)
          rw [hxe, hnull] at hxr
          exact Option.noConfusion hxr
    rw [hnone]
    rfl
  · intro hall
    unfold rs_ratings
    rw [List.filterMap_eq_nil_iff]
    intro x hx
    rw [hall x hx]
    rfl

/-- C9 witness: a single row with null raw strength keeps a null rating, and
the all-null population yields the empty rating set. -/
theorem C9_null_raw_null_rating_witness :
    final_rating [(⟨1, 0, none⟩ : RsRow)] 1 0 = none
  ∧ rs_ratings [(⟨1, 0, none⟩ : RsRow)] = [] :=
  ⟨(C9_null_raw_null_rating [⟨1, 0, none⟩] ⟨1, 0, none⟩ (by decide) (by decide) rfl).1,
   (C9_null_raw_null_rating [⟨1, 0, none⟩] ⟨1, 0, none⟩ (by decide) (by decide) rfl).2
    (by decide)⟩

/-! ## C5: tie-aware minimum-rank percentile rating -/

theorem countP_le_countP {p q : ℚ → Bool} :
    ∀ l : List ℚ, (∀ a ∈ l, p a = true → q a = true) → l.countP p ≤ l.countP q := by
  intro l h
  induction l with
  | nil => simp
  | cons y t ih =>
      rw [List.countP_cons, List.countP_cons]
      have ht : t.countP p ≤ t.countP q :=
        ih (fun a ha => h a (List.mem_cons_of_mem _ ha))
      by_cases hp : p y = true
      · simp only [hp, h y (List.mem_cons_self _ _) hp, if_true]
        omega
      · rw [Bool.not_eq_true] at hp
        simp only [hp, Bool.false_eq_true, if_false]
        split <;> omega

theorem countLT_lt_length {x : ℚ} {pop : List ℚ} (hx : x ∈ pop) :
    pop.countP (fun y => decide (y < x)) < pop.length := by
  induction pop with
  | nil => cases hx
  | cons y t ih =>
      rw [List.countP_cons, List.length_cons]
      rcases List.mem_cons.mp hx with rfl | hxt
      · have hxx : decide (x < x) = false := by simp
        rw [hxx]
        have := List.countP_le_length (l := t) (p := fun z => decide (z < x))
        simp only [Bool.false_eq_true, if_false]
        omega
      · have := ih hxt
        split <;> omega

/-- C5.  The rating is rank(pct=True, method='min') scaled by 100, a
function of the raw-strength value within its date population: symbols with
equal raw strength receive the same rating by construction; strictly greater
raw strength never receives a strictly smaller rating; ratings of population
members lie in the interval from 0 to 100; and in the population 1/20, 1/20,
1/10, the two tied symbols share the rating 100/3 while the third receives
100. -/
theorem C5_rating_monotone (pop : List ℚ) (a b : ℚ) (ha : a ∈ pop) (hb : b ∈ pop)
    (hba : b < a) :
    rs_rating_of pop b ≤ rs_rating_of pop a
  ∧ 0 < rs_rating_of pop a ∧ rs_rating_of pop a ≤ 100
  ∧ rs_rating_of [1/20, 1/20, 1/10] (1/20) = 100/3
  ∧ rs_rating_of [1/20, 1/20, 1/10] (1/10) = 100
  ∧ ((100:ℚ)/3 < 100) := by
  have hnpos : 0 < (pop.length : ℚ) := by
    have : 0 < pop.length := List.length_pos.mpr (List.ne_nil_of_mem ha)
    exact_mod_cast this
  refine ⟨?_, ?_, ?_, ?_, ?_, by norm_num⟩
  · unfold rs_rating_of rank_pct_min
    have hcc : pop.countP (fun y => decide (y < b)) ≤ pop.countP (fun y => decide (y < a)) := by
      apply countP_le_countP
      intro z _ hz
      rw [decide_eq_true_eq] at hz ⊢
      exact lt_trans hz hba
    have hccq := (Nat.cast_le (α := ℚ)).mpr hcc
    apply mul_le_mul_of_nonneg_right ?_ (by norm_num)
    gcongr
  · unfold rs_rating_of rank_pct_min
    apply mul_pos ?_ (by norm_num)
    apply div_pos ?_ hnpos
    positivity
  · unfold rs_rating_of rank_pct_min
    have hlt : pop.countP (fun y => decide (y < a)) < pop.length := countLT_lt_length ha
    have hle : ((pop.countP (fun y => decide (y < a)) : ℚ) + 1) ≤ (pop.length : ℚ) := by
      have : pop.countP (fun y => decide (y < a)) + 1 ≤ pop.length := hlt
      exact_mod_cast this
    have h1 : ((pop.countP (fun y => decide (y < a)) : ℚ) + 1) / (pop.length : ℚ) ≤ 1 :=
      (div_le_one hnpos).mpr hle
    nlinarith
  · norm_num [rs_rating_of, rank_pct_min]
  · norm_num [rs_rating_of, rank_pct_min]

/-- C5 witness: the scenario population 1/20, 1/20, 1/10 with the rated pair
1/10 over 1/20. -/
theorem C5_rating_monotone_witness :
    rs_rating_of [1/20, 1/20, 1/10] (1/20) ≤ rs_rating_of [1/20, 1/20, 1/10] (1/10)
  ∧ 0 < rs_rating_of [1/20, 1/20, 1/10] (1/10)
  ∧ rs_rating_of [1/20, 1/20, 1/10] (1/10) ≤ 100
  ∧ rs_rating_of [1/20, 1/20, 1/10] (1/20) = 100/3
  ∧ rs_rating_of [1/20, 1/20, 1/10] (1/10) = 100
  ∧ ((100:ℚ)/3 < 100) := by
  have h := C5_rating_monotone [1/20, 1/20, 1/10] (1/10) (1/20)
    (by norm_num) (by norm_num) (by norm_num)
  exact ⟨h.1, h.2.1, h.2.2.1, h.2.2.2.1, h.2.2.2.2.1, h.2.2.2.2.2⟩

/-! ## Lemmas on the date-keyed deduplication -/

theorem mem_of_mem_dedupKeepLast : ∀ {l : List MRow} {r : MRow},
    r ∈ dedupKeepLast l → r ∈ l := by
  intro l
  induction l with
  | nil => intro r h; exact absurd h (by simp [dedupKeepLast])
  | cons s t ih =>
      intro r h
      unfold dedupKeepLast at h
      by_cases hc : ∃ x ∈ t, x.date = s.date
      · rw [if_pos hc] at h
        exact List.mem_cons_of_mem _ (ih h)
      · rw [if_neg hc] at h
        rcases List.mem_cons.mp h with rfl | h
        · exact List.mem_cons_self _ _
        · exact List.mem_cons_of_mem _ (ih h)

theorem dates_dedupKeepLast_subset {l : List MRow} :
    dates (dedupKeepLast l) ⊆ dates l := by
  intro d hd
  rcases List.mem_map.mp hd with ⟨r, hr, rfl⟩
  exact List.mem_map_of_mem _ (mem_of_mem_dedupKeepLast hr)

theorem dates_dedupKeepLast_nodup : ∀ l : List MRow, (dates (dedupKeepLast l)).Nodup := by
  intro l
  induction l with
  | nil => simp [dedupKeepLast, dates]
  | cons s t ih =>
      unfold dedupKeepLast
      by_cases hc : ∃ x ∈ t, x.date = s.date
      · rw [if_pos hc]; exact ih
      · rw [if_neg hc]
        rw [dates, List.map_cons, List.nodup_cons]
        refine ⟨fun hmem => ?_, ih⟩
        rcases List.mem_map.mp (dates_dedupKeepLast_subset hmem) with ⟨x, hx, hxd⟩
        exact hc ⟨x, hx, hxd⟩

theorem mem_dedupKeepLast_append : ∀ (l₁ : List MRow) {r : MRow} {l₂ : List MRow},
    r.date ∉ dates l₂ → r ∈ dedupKeepLast (l₁ ++ r :: l₂) := by
  intro l₁
  induction l₁ with
  | nil =>
      intro r l₂ hd
      rw [List.nil_append]
      unfold dedupKeepLast
      rw [if_neg]
      · exact List.mem_cons_self _ _
      · rintro ⟨x, hx, hxd⟩
        exact hd (hxd ▸ List.mem_map_of_mem _ hx)
  | cons s l₁ ih =>
      intro r l₂ hd
      rw [List.cons_append]
      unfold dedupKeepLast
      by_cases hc : ∃ x ∈ l₁ ++ r :: l₂, x.date = s.date
      · rw [if_pos hc]; exact ih hd
      · rw [if_neg hc]; exact List.mem_cons_of_mem _ (ih hd)

theorem mem_suffix_of_dedupKeepLast : ∀ (l₁ : List MRow) {l₂ : List MRow} {r : MRow},
    r ∈ dedupKeepLast (l₁ ++ l₂) → r.date ∈ dates l₂ → r ∈ l₂ := by
  intro l₁
  induction l₁ with
  | nil =>
      intro l₂ r h _
      rw [List.nil_append] at h
      exact mem_of_mem_dedupKeepLast h
  | cons s l₁ ih =>
      intro l₂ r h hd
      rw [List.cons_append] at h
      unfold dedupKeepLast at h
      by_cases hc : ∃ x ∈ l₁ ++ l₂, x.date = s.date
      · rw [if_pos hc] at h
        exact ih h hd
      · rw [if_neg hc] at h
        rcases List.mem_cons.mp h with rfl | h
        · exfalso
          rcases List.mem_map.mp hd with ⟨x, hx, hxd⟩
          exact hc ⟨x, List.mem_append_right _ hx, hxd⟩
        · exact ih h hd

/-! ## Lemmas on sorting and on the date lookup -/

theorem sortByDate_perm (l : List MRow) : List.Perm (sortByDate l) l :=
  List.perm_insertionSort _ _

theorem strict_dates_nodup {l : List MRow} (h : StrictByDate l) : (dates l).Nodup :=
  List.pairwise_map.mpr (h.imp fun hlt => ne_of_lt hlt)

theorem strict_of_sorted_nodup {l : List MRow} (hs : l.Sorted rowLe)
    (hn : (dates l).Nodup) : StrictByDate l := by
  have hne : l.Pairwise (fun a b : MRow => a.date ≠ b.date) := List.pairwise_map.mp hn
  exact (hs.and hne).imp fun hab => lt_of_le_of_ne hab.1 hab.2

theorem sortByDate_strict {l : List MRow} (hn : (dates l).Nodup) :
    StrictByDate (sortByDate l) :=
  strict_of_sorted_nodup (List.sorted_insertionSort _ _)
    (((sortByDate_perm l).map MRow.date).nodup_iff.mpr hn)

theorem lookupDate_eq_some {l : List MRow} {r : MRow} (hn : (dates l).Nodup)
    (hr : r ∈ l) : lookupDate r.date l = some r := by
  induction l with
  | nil => cases hr
  | cons s t ih =>
      rcases List.mem_cons.mp hr with rfl | hrt
      · exact List.find?_cons_of_pos _ (by simp)
      · have hsd : s.date ∉ dates t := by
          have := List.nodup_cons.mp hn
          simpa [dates] using this.1
        have hne : s.date ≠ r.date := fun he =>
          hsd (he ▸ List.mem_map_of_mem _ hrt)
        rw [lookupDate, List.find?_cons_of_neg _ (by simp [hne])]
        exact ih (List.nodup_cons.mp (by simpa [dates] using hn)).2 hrt

theorem lookupDate_eq_none {l : List MRow} {d : ℤ} (h : d ∉ dates l) :
    lookupDate d l = none := by
  rw [lookupDate, List.find?_eq_none]
  intro r hr hrd
  rw [decide_eq_true_eq] at hrd
  exact h (hrd ▸ List.mem_map_of_mem _ hr)

theorem lookupDate_mem {l : List MRow} {d : ℤ} {r : MRow}
    (h : lookupDate d l = some r) : r ∈ l ∧ r.date = d :=
  ⟨List.mem_of_find?_eq_some h, by
    have := List.find?_some h
    simpa using this⟩

theorem lookupDate_perm {l₁ l₂ : List MRow} (hp : List.Perm l₁ l₂)
    (hn : (dates l₁).Nodup) (d : ℤ) : lookupDate d l₁ = lookupDate d l₂ := by
  by_cases hd : d ∈ dates l₁
  · rcases List.mem_map.mp hd with ⟨r, hr, rfl⟩
    rw [lookupDate_eq_some hn hr,
      lookupDate_eq_some ((hp.map MRow.date).nodup_iff.mp hn) (hp.subset hr)]
  · rw [lookupDate_eq_none hd,
      lookupDate_eq_none (fun hc => hd ((hp.map MRow.date).mem_iff.mpr hc))]

theorem eq_of_strict_of_lookup : ∀ {l₁ l₂ : List MRow}, StrictByDate l₁ →
    StrictByDate l₂ → (∀ d, lookupDate d l₁ = lookupDate d l₂) → l₁ = l₂ := by
  intro l₁
  induction l₁ with
  | nil =>
      intro l₂ h₁ h₂ h
      cases l₂ with
      | nil => rfl
      | cons b t₂ =>
          have hb := lookupDate_eq_some (strict_dates_nodup h₂) (List.mem_cons_self b t₂)
          rw [← h b.date] at hb
          exact absurd hb (by simp [lookupDate])
  | cons a t₁ ih =>
      intro l₂ h₁ h₂ h
      cases l₂ with
      | nil =>
          have ha := lookupDate_eq_some (strict_dates_nodup h₁) (List.mem_cons_self a t₁)
          rw [h a.date] at ha
          exact absurd ha (by simp [lookupDate])
      | cons b t₂ =>
          have ha2 : lookupDate a.date (b :: t₂) = some a := by
            rw [← h]
            exact lookupDate_eq_some (strict_dates_nodup h₁) (List.mem_cons_self a t₁)
          have hb1 : lookupDate b.date (a :: t₁) = some b := by
            rw [h]
            exact lookupDate_eq_some (strict_dates_nodup h₂) (List.mem_cons_self b t₂)
          have hab : a = b := by
            rcases List.mem_cons.mp (lookupDate_mem ha2).1 with h' | h'
            · exact h'
            · rcases List.mem_cons.mp (lookupDate_mem hb1).1 with h'' | h''
              · exact h''.symm
              · have hba := (List.pairwise_cons.mp h₂).1 a h'
                have hab := (List.pairwise_cons.mp h₁).1 b h''
                exact absurd (lt_trans hba hab) (lt_irrefl _)
          subst hab
          have htail : t₁ = t₂ := by
            apply ih (List.pairwise_cons.mp h₁).2 (List.pairwise_cons.mp h₂).2
            intro d
            by_cases hda : d = a.date
            · have h1 : a.date ∉ dates t₁ := fun hc => by
                rcases List.mem_map.mp hc with ⟨x, hx, hxd⟩
                exact absurd (hxd ▸ (List.pairwise_cons.mp h₁).1 x hx) (lt_irrefl _)
              have h2 : a.date ∉ dates t₂ := fun hc => by
                rcases List.mem_map.mp hc with ⟨x, hx, hxd⟩
                exact absurd (hxd ▸ (List.pairwise_cons.mp h₂).1 x hx) (lt_irrefl _)
              rw [hda, lookupDate_eq_none h1, lookupDate_eq_none h2]
            · have hd := h d
              rw [lookupDate, List.find?_cons_of_neg _ (by simp [Ne.symm hda]),
                lookupDate, List.find?_cons_of_neg _ (by simp [Ne.symm hda])] at hd
              exact hd
          rw [htail]

/-! ## The date lookup of the merge kernel -/

theorem lookupDate_dedup_append_left {E N : List MRow} (hE : (dates E).Nodup)
    {d : ℤ} (hdN : d ∉ dates N) (hdE : d ∈ dates E) :
    lookupDate d (dedupKeepLast (E ++ N)) = lookupDate d E := by
  rcases List.mem_map.mp hdE with ⟨r, hrE, rfl⟩
  rcases List.append_of_mem hrE with ⟨E₁, E₂, rfl⟩
  have hd2 : r.date ∉ dates (E₂ ++ N) := by
    intro hc
    rw [dates, List.map_append, List.mem_append] at hc
    rcases hc with hc | hc
    · have := hE
      rw [dates, List.map_append, List.map_cons] at this
      have := (this.of_append_right)
      exact (List.nodup_cons.mp this).1 hc
    · exact hdN hc
  have hmem : r ∈ dedupKeepLast ((E₁ ++ r :: E₂) ++ N) := by
    rw [List.append_assoc, List.cons_append]
    exact mem_dedupKeepLast_append E₁ hd2
  rw [lookupDate_eq_some (dates_dedupKeepLast_nodup _) hmem,
    lookupDate_eq_some hE hrE]

theorem lookupDate_dedup_append_right {E N : List MRow} (hN : (dates N).Nodup)
    {d : ℤ} (hdN : d ∈ dates N) :
    lookupDate d (dedupKeepLast (E ++ N)) = lookupDate d N := by
  rcases List.mem_map.mp hdN with ⟨r, hrN, rfl⟩
  rcases List.append_of_mem hrN with ⟨N₁, N₂, rfl⟩
  have hd2 : r.date ∉ dates N₂ := by
    have := hN
    rw [dates, List.map_append, List.map_cons] at this
    exact (List.nodup_cons.mp this.of_append_right).1
  have hmem : r ∈ dedupKeepLast (E ++ (N₁ ++ r :: N₂)) := by
    rw [← List.append_assoc]
    exact mem_dedupKeepLast_append (E ++ N₁) hd2
  rw [lookupDate_eq_some (dates_dedupKeepLast_nodup _) hmem,
    lookupDate_eq_some hN hrN]

theorem lookupDate_dedup_append_none {E N : List MRow}
    {d : ℤ} (hdN : d ∉ dates N) (hdE : d ∉ dates E) :
    lookupDate d (dedupKeepLast (E ++ N)) = none := by
  apply lookupDate_eq_none
  intro hc
  have := dates_dedupKeepLast_subset hc
  rw [dates, List.map_append, List.mem_append] at this
  exact this.elim hdE hdN

/-! ## Lookup through merge_data -/

theorem merge_data_strict {E N : List MRow} (hE : StrictByDate E)
    (hN : StrictByDate N) : StrictByDate (merge_data E N) := by
  unfold merge_data
  by_cases hEe : E = []
  · rw [if_pos hEe]
    exact sortByDate_strict (strict_dates_nodup hN)
  · rw [if_neg hEe]
    by_cases hNe : N = []
    · rw [if_pos hNe]; exact hE
    · rw [if_neg hNe]
      exact sortByDate_strict (dates_dedupKeepLast_nodup _)

theorem lookupDate_merge_memN {E N : List MRow} (hE : StrictByDate E)
    (hN : StrictByDate N) {d : ℤ} (hd : d ∈ dates N) :
    lookupDate d (merge_data E N) = lookupDate d N := by
  unfold merge_data
  by_cases hEe : E = []
  · rw [if_pos hEe]
    exact lookupDate_perm (sortByDate_perm N)
      (((sortByDate_perm N).map MRow.date).nodup_iff.mpr (strict_dates_nodup hN)) d
  · rw [if_neg hEe]
    by_cases hNe : N = []
    · exact absurd hd (by simp [hNe, dates])
    · rw [if_neg hNe]
      rw [lookupDate_perm (sortByDate_perm _)
        (((sortByDate_perm _).map MRow.date).nodup_iff.mpr (dates_dedupKeepLast_nodup _)) d]
      exact lookupDate_dedup_append_right (strict_dates_nodup hN) hd

theorem lookupDate_merge_not_memN {E N : List MRow} (hE : StrictByDate E)
    (hN : StrictByDate N) {d : ℤ} (hd : d ∉ dates N) :
    lookupDate d (merge_data E N) = lookupDate d E := by
  unfold merge_data
  by_cases hEe : E = []
  · rw [if_pos hEe]
    rw [lookupDate_perm (sortByDate_perm N)
      (((sortByDate_perm N).map MRow.date).nodup_iff.mpr (strict_dates_nodup hN)) d]
    rw [lookupDate_eq_none hd, lookupDate_eq_none (by simp [hEe, dates])]
  · rw [if_neg hEe]
    by_cases hNe : N = []
    · rw [if_pos hNe]
    · rw [if_neg hNe]
      rw [lookupDate_perm (sortByDate_perm _)
        (((sortByDate_perm _).map MRow.date).nodup_iff.mpr (dates_dedupKeepLast_nodup _)) d]
      by_cases hdE : d ∈ dates E
      · exact lookupDate_dedup_append_left (strict_dates_nodup hE) hd hdE
      · rw [lookupDate_dedup_append_none hd hdE, lookupDate_eq_none hdE]

/-! ## C3: the merge contract -/

/-- C3.  For ordered per-symbol series (strictly ascending dates, the shape
of every persisted frame), merge_data is keyed by date with new values
winning: every row of the new frame is the one stored under its date in the
result (in particular each overlapping date holds the new value), every
existing row whose date is absent from the new frame is preserved, and the
result has no duplicate dates and is strictly ascending by date. -/
theorem C3_merge_keyed_by_date (E N : List MRow) (hE : StrictByDate E)
    (hN : StrictByDate N) :
    (∀ r ∈ N, lookupDate r.date (merge_data E N) = some r)
  ∧ (∀ r ∈ E, r.date ∉ dates N → r ∈ merge_data E N)
  ∧ (dates (merge_data E N)).Nodup
  ∧ StrictByDate (merge_data E N) := by
  refine ⟨?_, ?_, strict_dates_nodup (merge_data_strict hE hN), merge_data_strict hE hN⟩
  · intro r hr
    rw [lookupDate_merge_memN hE hN (List.mem_map_of_mem _ hr)]
    exact lookupDate_eq_some (strict_dates_nodup hN) hr
  · intro r hr hd
    have hlook := lookupDate_merge_not_memN hE hN hd
    rw [lookupDate_eq_some (strict_dates_nodup hE) hr] at hlook
    exact (lookupDate_mem hlook).1

/-- C3 witness: existing rows at dates 0 and 1, new rows at dates 1 and 2;
the merged frame stores the new value under the shared date 1, preserves the
untouched date 0, and has distinct ascending dates. -/
theorem C3_merge_keyed_by_date_witness :
    lookupDate 1 (merge_data [⟨0, 5⟩, ⟨1, 6⟩] [⟨1, 9⟩, ⟨2, 7⟩]) = some ⟨1, 9⟩
  ∧ (⟨0, 5⟩ : MRow) ∈ merge_data [⟨0, 5⟩, ⟨1, 6⟩] [⟨1, 9⟩, ⟨2, 7⟩]
  ∧ (dates (merge_data [⟨0, 5⟩, ⟨1, 6⟩] [⟨1, 9⟩, ⟨2, 7⟩])).Nodup
  ∧ StrictByDate (merge_data [⟨0, 5⟩, ⟨1, 6⟩] [⟨1, 9⟩, ⟨2, 7⟩]) := by
  have h := C3_merge_keyed_by_date [⟨0, 5⟩, ⟨1, 6⟩] [⟨1, 9⟩, ⟨2, 7⟩]
    (by decide) (by decide)
  exact ⟨h.1 ⟨1, 9⟩ (by decide), h.2.1 ⟨0, 5⟩ (by decide) (by decide), h.2.2.1, h.2.2.2⟩

/-! ## C4: merge idempotence -/

/-- C4.  For ordered per-symbol series, re-merging the same new window into
an already-merged frame changes nothing: merge(merge(A, B), B) equals
merge(A, B), so re-running a recomputation window is a no-op on
already-correct data. -/
theorem C4_merge_idempotent (A B : List MRow) (hA : StrictByDate A)
    (hB : StrictByDate B) :
    merge_data (merge_data A B) B = merge_data A B := by
  have hM := merge_data_strict hA hB
  apply eq_of_strict_of_lookup (merge_data_strict hM hB) hM
  intro d
  by_cases hd : d ∈ dates B
  · rw [lookupDate_merge_memN hM hB hd, lookupDate_merge_memN hA hB hd]
  · rw [lookupDate_merge_not_memN hM hB hd]

/-- C4 witness: the idempotence equation at the concrete frames of the C3
witness. -/
theorem C4_merge_idempotent_witness :
    merge_data (merge_data [⟨0, 5⟩, ⟨1, 6⟩] [⟨1, 9⟩, ⟨2, 7⟩]) [⟨1, 9⟩, ⟨2, 7⟩]
      = merge_data [⟨0, 5⟩, ⟨1, 6⟩] [⟨1, 9⟩, ⟨2, 7⟩] :=
  C4_merge_idempotent [⟨0, 5⟩, ⟨1, 6⟩] [⟨1, 9⟩, ⟨2, 7⟩] (by decide) (by decide)

/-! ## C10: update_or_append only persists strictly longer frames -/

/-- C10.  When every date of the freshly downloaded frame already exists in
the stored file, the merged frame is no longer than the stored one, so
update_or_append leaves the file unchanged and reports 0 added records —
even when the new rows carry different values for overlapping dates, the
new-wins overwrite happens only in the in-memory merge, never in the
store. -/
theorem C10_no_persist_without_new_dates (existing newData : List MRow)
    (h : ∀ r ∈ newData, r.date ∈ dates existing) :
    update_or_append (some existing) newData = (some existing, 0) := by
  have hlen : (sortByDate (dedupKeepLast (existing ++ newData))).length
      ≤ existing.length := by
    rw [(sortByDate_perm _).length_eq]
    have hnodup := dates_dedupKeepLast_nodup (existing ++ newData)
    have hsub : dates (dedupKeepLast (existing ++ newData)) ⊆ dates existing := by
      intro d hdm
      have hd' := dates_dedupKeepLast_subset hdm
      rw [dates, List.map_append, List.mem_append] at hd'
      rcases hd' with hd' | hd'
      · exact hd'
      · rcases List.mem_map.mp hd' with ⟨r, hr, rfl⟩
        exact h r hr
    have hle := (hnodup.subperm hsub).length_le
    simpa [dates] using hle
  simp only [update_or_append]
  rw [if_neg (by omega)]

/-- C10 witness: the stored file holds date 1 with value 10; the download
holds date 1 with the corrected value 99; the file is left unchanged and 0
added records are reported. -/
theorem C10_no_persist_without_new_dates_witness :
    update_or_append (some [⟨1, 10⟩]) [⟨1, 99⟩] = (some [⟨1, 10⟩], 0) :=
  C10_no_persist_without_new_dates [⟨1, 10⟩] [⟨1, 99⟩] (by decide)

end LightStock
